import Mathlib

/-
Verification of the trip synchronization layer of the pack-trip repository.

The definitions below are shallow embeddings of:
  * the client optimistic mutation controller in `useTripState`
    (vote toggle, single availability set, batch availability set,
    WebSocket event dispatch with `lastProcessedIndex`),
  * the `useWebSocket` connection manager (reconnect backoff, effect cleanup),
  * the Express route handlers and `MemStorage` in `server/routes.ts`
    (POST votes, `deleteVote`, `createVote`, `setDateAvailability`),
  * the roadmap builder `getRoadmapSteps` / `STATE_ORDER` in `ContextDrawer.tsx`.

JavaScript arrays become `List`, `undefined`-able cache values become
`Option`, `Date` values become epoch milliseconds (`Nat`), `Date.now()`
temporary identifiers become explicit `Nat` parameters, and the ambient
timezone used by `Date.prototype.toDateString` becomes an explicit UTC
offset parameter (in milliseconds).
-/

namespace PackTrip

/-! ## Generic list helpers mirroring the JavaScript array operations -/

/-- JavaScript `Array.prototype.findIndex`: index of the first element
satisfying `p`, or `none` (JS: `-1`) when there is no such element. -/
def jsFindIndex {α : Type} (p : α → Bool) : List α → Option Nat
  | [] => none
  | a :: l => if p a then some 0 else (jsFindIndex p l).map (· + 1)

/-- In-place update `arr[i] = f (arr[i])` of a JavaScript array. -/
def listModify {α : Type} : List α → Nat → (α → α) → List α
  | [], _, _ => []
  | a :: l, 0, f => f a :: l
  | a :: l, i + 1, f => a :: listModify l i f

theorem jsFindIndex_eq_none_iff {α : Type} (p : α → Bool) (l : List α) :
    jsFindIndex p l = none ↔ l.filter p = [] := by
  induction l with
  | nil => simp [jsFindIndex]
  | cons a l ih =>
    by_cases h : p a
    · simp [jsFindIndex, h, List.filter_cons]
    · simp only [jsFindIndex, h, if_false, List.filter_cons]
      simp only [h, if_false, Bool.false_eq_true]
      rw [← ih]
      cases jsFindIndex p l <;> simp

theorem jsFindIndex_some {α : Type} {p : α → Bool} {l : List α} {i : Nat}
    (h : jsFindIndex p l = some i) : ∃ a, l[i]? = some a ∧ p a = true := by
  induction l generalizing i with
  | nil => simp [jsFindIndex] at h
  | cons a l ih =>
    by_cases ha : p a
    · simp [jsFindIndex, ha] at h
      subst h
      exact ⟨a, by simp, ha⟩
    · simp [jsFindIndex, ha] at h
      obtain ⟨j, hj, hji⟩ := h
      obtain ⟨b, hb, hpb⟩ := ih hj
      exact ⟨b, by simpa [← hji] using hb, hpb⟩

theorem filter_length_modify {α : Type} (p : α → Bool) (r a : α) :
    ∀ (l : List α) (i : Nat), l[i]? = some a → p r = p a →
    ((listModify l i (fun _ => r)).filter p).length = (l.filter p).length := by
  intro l
  induction l with
  | nil => intro i h; simp at h
  | cons x l ih =>
    intro i h hr
    cases i with
    | zero =>
      simp at h
      subst h
      by_cases hx : p x
      · simp [listModify, List.filter_cons, hr, hx]
      · simp [listModify, List.filter_cons, hr, hx]
    | succ j =>
      simp at h
      by_cases hx : p x
      · simp [listModify, List.filter_cons, hx, ih j h hr]
      · simp [listModify, List.filter_cons, hx, ih j h hr]

theorem filter_modify_unique {α : Type} (p : α → Bool) (r : α) (hr : p r = true) :
    ∀ (l : List α) (i : Nat), jsFindIndex p l = some i →
    (l.filter p).length = 1 →
    (listModify l i (fun _ => r)).filter p = [r] := by
  intro l
  induction l with
  | nil => intro i h; simp [jsFindIndex] at h
  | cons x l ih =>
    intro i hfind hlen
    by_cases hx : p x
    · simp [jsFindIndex, hx] at hfind
      subst hfind
      rw [List.filter_cons, if_pos hx, List.length_cons] at hlen
      have hlen1 : (l.filter p).length = 0 := by omega
      have hnil : l.filter p = [] := List.length_eq_zero.mp hlen1
      simp [listModify, List.filter_cons, hr, hnil]
    · simp [jsFindIndex, hx] at hfind
      obtain ⟨j, hj, hji⟩ := hfind
      simp only [List.filter_cons, hx, Bool.false_eq_true, if_false] at hlen
      subst hji
      simp [listModify, List.filter_cons, hx, ih j hj hlen]

theorem filter_neg_filter {α : Type} (p q : α → Bool)
    (h : ∀ a, p a = true → q a = true) (l : List α) :
    (l.filter (fun a => !(q a))).filter p = [] := by
  induction l with
  | nil => simp
  | cons a l ih =>
    by_cases hq : q a
    · simp [List.filter_cons, hq, ih]
    · have hp : p a = false := by
        cases hpa : p a
        · rfl
        · exact absurd (h a hpa) (by simp [hq])
      simp [List.filter_cons, hq, hp, ih]

theorem filter_length_append_single {α : Type} (p : α → Bool) (l : List α) (a : α) :
    ((l ++ [a]).filter p).length =
      (l.filter p).length + (if p a then 1 else 0) := by
  by_cases h : p a <;> simp [List.filter_append, List.filter_cons, h]

theorem jsFindIndex_map {α β : Type} (p : α → Bool) (f : β → α) (l : List β) :
    jsFindIndex p (l.map f) = jsFindIndex (fun b => p (f b)) l := by
  induction l with
  | nil => rfl
  | cons a l ih =>
    by_cases h : p (f a) <;> simp [jsFindIndex, h, ih]

theorem listModify_map {α β : Type} (g : α → β) (f : α → α) (f' : β → β)
    (h : ∀ a, g (f a) = f' (g a)) :
    ∀ (l : List α) (i : Nat),
      (listModify l i f).map g = listModify (l.map g) i f' := by
  intro l
  induction l with
  | nil => intro i; rfl
  | cons a l ih =>
    intro i
    cases i with
    | zero => simp [listModify, h a]
    | succ j => simp [listModify, ih j]

/-! ## Votes -/

/-- A vote record as cached on the client and stored by `MemStorage`.
The `tripId` and `timestamp` fields of the source records are omitted:
the store is modelled per trip, and no compared logic reads the timestamp. -/
structure Vote where
  id : Nat
  userId : Nat
  optionId : String
  emoji : String
  deriving DecidableEq, Repr

/-- The predicate used by `voteMutation.onMutate`:
`vote.user_id === userId && vote.option_id === optionId && vote.emoji === emoji`. -/
def voteMatches (u : Nat) (o e : String) (v : Vote) : Bool :=
  v.userId == u && v.optionId == o && v.emoji == e

/-- Number of cached votes for the (user, option, emoji) triple. -/
def countTriple (u : Nat) (o e : String) (l : List Vote) : Nat :=
  (l.filter (voteMatches u o e)).length

/-- The optimistic cache transformation of `voteMutation.onMutate` on a
present (non-`undefined`) votes collection: if a vote for the exact
(user, option, emoji) triple exists, filter out all votes for the triple
(toggle off), otherwise append a new vote with a temporary identifier
(`Date.now()`, modelled as `newId`). -/
def voteToggleList (u : Nat) (o e : String) (newId : Nat) (votes : List Vote) :
    List Vote :=
  match jsFindIndex (voteMatches u o e) votes with
  | some _ => votes.filter (fun v => !(voteMatches u o e v))
  | none => votes ++ [⟨newId, u, o, e⟩]

/-- `MemStorage.deleteVote`: keep only votes that are not by `userId` for
`optionId` (the emoji is not consulted). -/
def deleteVote (u : Nat) (o : String) (l : List Vote) : List Vote :=
  l.filter (fun v => !(v.userId == u && v.optionId == o))

/-- `MemStorage.createVote`: append a vote with the next fresh identifier.
The state is the vote list of the trip paired with `currentVoteId`. -/
def createVote (u : Nat) (o e : String) (st : List Vote × Nat) :
    List Vote × Nat :=
  (st.1 ++ [⟨st.2, u, o, e⟩], st.2 + 1)

/-- The handler of `POST /api/trips/:tripId/votes`: remove any existing vote
for this user/option combination, then add the new vote. -/
def postVoteRoute (u : Nat) (o e : String) (st : List Vote × Nat) :
    List Vote × Nat :=
  createVote u o e (deleteVote u o st.1, st.2)

/-- `voteMutation.onMutate` at the cache level, including the `undefined`
cache case. Returns the new cache and the snapshot (`previousVotes`).
When the cache is absent, `previousVotes?.findIndex` evaluates to
`undefined`, `undefined >= 0` is false, and the add branch writes
`[...(old || []), newVote]`, turning the absent cache into a one-element
collection. -/
def voteMutationOnMutate (u : Nat) (o e : String) (newId : Nat)
    (cache : Option (List Vote)) : Option (List Vote) × Option (List Vote) :=
  let previousVotes := cache
  let hasExisting : Bool :=
    match previousVotes with
    | some vs => (jsFindIndex (voteMatches u o e) vs).isSome
    | none => false
  let newCache : Option (List Vote) :=
    if hasExisting then
      cache.map (fun old => old.filter (fun v => !(voteMatches u o e v)))
    else
      some (cache.getD [] ++ [⟨newId, u, o, e⟩])
  (newCache, previousVotes)

/-- `voteMutation.onError`: `if (context?.previousVotes) setQueryData(prev)`.
An absent (`undefined`) snapshot is falsy, so the rollback is skipped. -/
def voteMutationOnError (snapshot cache : Option (List Vote)) :
    Option (List Vote) :=
  match snapshot with
  | some prev => some prev
  | none => cache

/-- A vote mutation whose remote write fails, with no interleaved cache
activity: `onMutate` runs, then `onError` rolls back from the snapshot. -/
def voteMutationFailedFlow (u : Nat) (o e : String) (newId : Nat)
    (cache : Option (List Vote)) : Option (List Vote) :=
  let r := voteMutationOnMutate u o e newId cache
  voteMutationOnError r.2 r.1

theorem countTriple_zero_findIndex {u : Nat} {o e : String} {l : List Vote}
    (h : countTriple u o e l = 0) :
    jsFindIndex (voteMatches u o e) l = none := by
  rw [jsFindIndex_eq_none_iff]
  exact List.length_eq_zero.mp h

theorem voteMatches_new (u : Nat) (o e : String) (n : Nat) :
    voteMatches u o e ⟨n, u, o, e⟩ = true := by
  simp [voteMatches]

theorem countTriple_toggle_from_zero (u : Nat) (o e : String) (n : Nat)
    (l : List Vote) (h : countTriple u o e l = 0) :
    countTriple u o e (voteToggleList u o e n l) = 1 := by
  rw [voteToggleList, countTriple_zero_findIndex h]
  rw [countTriple, filter_length_append_single, voteMatches_new]
  rw [countTriple] at h
  simp [h]

theorem countTriple_toggle_from_pos (u : Nat) (o e : String) (n : Nat)
    (l : List Vote) (h : countTriple u o e l ≠ 0) :
    countTriple u o e (voteToggleList u o e n l) = 0 := by
  rw [voteToggleList]
  cases hfi : jsFindIndex (voteMatches u o e) l with
  | none =>
    exact absurd (List.length_eq_zero.mpr
      ((jsFindIndex_eq_none_iff _ _).mp hfi)) h
  | some i =>
    simp only [countTriple]
    rw [filter_neg_filter (voteMatches u o e) (voteMatches u o e)
      (fun _ ha => ha) l]
    rfl

theorem countTriple_postVote (u : Nat) (o e : String) (st : List Vote × Nat) :
    countTriple u o e (postVoteRoute u o e st).1 = 1 := by
  show countTriple u o e (deleteVote u o st.1 ++ [⟨st.2, u, o, e⟩]) = 1
  rw [countTriple, filter_length_append_single, voteMatches_new]
  have h0 : (List.filter (voteMatches u o e)
      (st.1.filter (fun v => !(v.userId == u && v.optionId == o)))) = [] := by
    apply filter_neg_filter
    intro v hv
    simp [voteMatches] at hv
    simp [hv.1.1, hv.1.2]
  rw [deleteVote, h0]
  rfl

/-- C1 counterexample: on the server, issuing the vote operation twice in
immediate succession on the same (user, option, emoji) triple does not
result in zero stored votes for the triple. `POST /api/trips/:tripId/votes`
first calls `MemStorage.deleteVote` (which filters by user and option) and
then `MemStorage.createVote`, so the second post deletes the first vote and
stores a fresh one: starting from an empty store, two posts leave one vote. -/
theorem vote_double_post_server_not_zero :
    ¬ (countTriple 1 "culture-history" "heart"
        (postVoteRoute 1 "culture-history" "heart"
          (postVoteRoute 1 "culture-history" "heart" ([], 1))).1 = 0) := by
  decide

/-- C1 (amended): the client-side optimistic vote updater has toggle
idempotence: starting from a cached vote list with no vote for the
(user, option, emoji) triple, applying it twice stores zero votes for the
triple and three times exactly one. The server vote endpoint instead
replaces: each post deletes any existing vote by the user for the option
and appends a fresh vote, so issuing it twice (from any store state)
leaves exactly one stored vote for the triple. -/
theorem vote_toggle_idempotence_amended (u : Nat) (o e : String)
    (n1 n2 n3 : Nat) (votes : List Vote)
    (h : countTriple u o e votes = 0) :
    countTriple u o e
      (voteToggleList u o e n2 (voteToggleList u o e n1 votes)) = 0
    ∧ countTriple u o e
      (voteToggleList u o e n3
        (voteToggleList u o e n2 (voteToggleList u o e n1 votes))) = 1
    ∧ ∀ st : List Vote × Nat,
        countTriple u o e (postVoteRoute u o e (postVoteRoute u o e st)).1 = 1 := by
  have h1 := countTriple_toggle_from_zero u o e n1 votes h
  have h2 := countTriple_toggle_from_pos u o e n2
    (voteToggleList u o e n1 votes) (by omega)
  have h3 := countTriple_toggle_from_zero u o e n3
    (voteToggleList u o e n2 (voteToggleList u o e n1 votes)) h2
  exact ⟨h2, h3, fun st => countTriple_postVote u o e (postVoteRoute u o e st)⟩

/-- Witness for the amended C1 theorem at a concrete input. -/
theorem vote_toggle_idempotence_amended_witness :
    countTriple 1 "opt-a" "heart"
      (voteToggleList 1 "opt-a" "heart" 11
        (voteToggleList 1 "opt-a" "heart" 10 [])) = 0
    ∧ countTriple 1 "opt-a" "heart"
      (voteToggleList 1 "opt-a" "heart" 12
        (voteToggleList 1 "opt-a" "heart" 11
          (voteToggleList 1 "opt-a" "heart" 10 []))) = 1
    ∧ countTriple 1 "opt-a" "heart"
      (postVoteRoute 1 "opt-a" "heart"
        (postVoteRoute 1 "opt-a" "heart" ([], 1))).1 = 1 := by
  have h := vote_toggle_idempotence_amended 1 "opt-a" "heart" 10 11 12 []
    (by decide)
  exact ⟨h.1, h.2.1, h.2.2 ([], 1)⟩

/-- C2 (code bug evaluation): a vote toggle started while the votes cache
is absent (before the first successful fetch) whose remote write fails
leaves the optimistic vote in the cache instead of restoring the
pre-mutation snapshot. `onMutate` appends through the absent cache
(`[...(old || []), newVote]`) while `onError` skips the rollback because
`context?.previousVotes` is `undefined`, hence falsy. -/
theorem vote_failed_rollback_leaves_optimistic_vote :
    voteMutationFailedFlow 1 "culture-history" "like" 42 none =
      some [⟨42, 1, "culture-history", "like"⟩]
    ∧ voteMutationFailedFlow 1 "culture-history" "like" 42 none ≠ none := by
  decide

/-! ## Availability records -/

/-- An availability record: the shape shared by the client cache entries
(`{id, user_id, date, available}`) and `MemStorage.dateAvailability`
records. The `date` is epoch milliseconds; the server `tripId` field is
omitted because the store is modelled per trip. `MemStorage` defaults a
missing `available` field to `true`; here the flag is always supplied. -/
structure DateAvailability where
  id : Nat
  userId : Nat
  date : Nat
  available : Bool
  deriving DecidableEq, Repr

/-- The local calendar day of an epoch-millisecond instant under a fixed
UTC offset `off` (in milliseconds): the day index that
`Date.prototype.toDateString` renders in the ambient timezone. -/
def localDay (off : Int) (t : Nat) : Int := ((t : Int) + off).fdiv 86400000

/-- The predicate of the client availability `findIndex`:
`a.user_id === userId && new Date(a.date).toDateString() === date.toDateString()`. -/
def clientAvailMatches (off : Int) (u d : Nat) (a : DateAvailability) : Bool :=
  a.userId == u && localDay off a.date == localDay off d

/-- The optimistic cache transformation of `setAvailabilityMutation.onMutate`
on a present collection: overwrite the `available` flag of an existing
record for the acting user and the same local calendar day, otherwise
append a fresh record with a temporary identifier (`Date.now()`). -/
def setAvailabilityUpdater (off : Int) (u newId d : Nat) (b : Bool)
    (old : List DateAvailability) : List DateAvailability :=
  match jsFindIndex (clientAvailMatches off u d) old with
  | some i => listModify old i (fun a => { a with available := b })
  | none => old ++ [⟨newId, u, d, b⟩]

/-- The full `setAvailabilityMutation.onMutate` updater: `if (!old) return old`. -/
def setAvailabilityOnMutateUpdater (off : Int) (u newId d : Nat) (b : Bool)
    (old : Option (List DateAvailability)) : Option (List DateAvailability) :=
  match old with
  | none => none
  | some l => some (setAvailabilityUpdater off u newId d b l)

/-- The `forEach` loop of `setBatchAvailabilityMutation.onMutate`: apply the
single-date rule for each (date, available) pair against one evolving
snapshot. Temporary identifiers (`Date.now() + Math.random()`) are modelled
by `gid` applied to the number of insertions performed so far. -/
def setBatchGo (off : Int) (u : Nat) (gid : Nat → Nat) :
    List (Nat × Bool) → List DateAvailability → Nat → List DateAvailability
  | [], acc, _ => acc
  | (d, b) :: rest, acc, k =>
    match jsFindIndex (clientAvailMatches off u d) acc with
    | some i =>
      setBatchGo off u gid rest (listModify acc i (fun a => { a with available := b })) k
    | none => setBatchGo off u gid rest (acc ++ [⟨gid k, u, d, b⟩]) (k + 1)

/-- The batch updater on a present collection. -/
def setBatchAvailabilityUpdater (off : Int) (u : Nat) (gid : Nat → Nat)
    (dates : List (Nat × Bool)) (old : List DateAvailability) :
    List DateAvailability :=
  setBatchGo off u gid dates old 0

/-- The full `setBatchAvailabilityMutation.onMutate` updater: `if (!old) return old`. -/
def setBatchAvailabilityOnMutateUpdater (off : Int) (u : Nat) (gid : Nat → Nat)
    (dates : List (Nat × Bool)) (old : Option (List DateAvailability)) :
    Option (List DateAvailability) :=
  match old with
  | none => none
  | some l => some (setBatchAvailabilityUpdater off u gid dates l)

/-- N successive applications of the single-date updater, in order; the
temporary identifier of the j-th call (its `Date.now()`) is `f j`. -/
def applySingles (off : Int) (u : Nat) (f : Nat → Nat) :
    List (Nat × Bool) → List DateAvailability → Nat → List DateAvailability
  | [], old, _ => old
  | (d, b) :: rest, old, j =>
    applySingles off u f rest (setAvailabilityUpdater off u (f j) d b old) (j + 1)

/-- The observable content of an availability record: everything except the
provisional identifier, which the settled-time refetch replaces. -/
def availObs (a : DateAvailability) : Nat × Nat × Bool :=
  (a.userId, a.date, a.available)

def eraseIds (l : List DateAvailability) : List (Nat × Nat × Bool) :=
  l.map availObs

def obsMatches (off : Int) (u d : Nat) (x : Nat × Nat × Bool) : Bool :=
  x.1 == u && localDay off x.2.1 == localDay off d

def stepObs (off : Int) (u d : Nat) (b : Bool)
    (acc : List (Nat × Nat × Bool)) : List (Nat × Nat × Bool) :=
  match jsFindIndex (obsMatches off u d) acc with
  | some i => listModify acc i (fun x => (x.1, x.2.1, b))
  | none => acc ++ [(u, d, b)]

def applyPairsObs (off : Int) (u : Nat) :
    List (Nat × Bool) → List (Nat × Nat × Bool) → List (Nat × Nat × Bool)
  | [], acc => acc
  | (d, b) :: rest, acc => applyPairsObs off u rest (stepObs off u d b acc)

theorem jsFindIndex_obs (off : Int) (u d : Nat) (l : List DateAvailability) :
    jsFindIndex (obsMatches off u d) (eraseIds l) =
      jsFindIndex (clientAvailMatches off u d) l := by
  rw [eraseIds, jsFindIndex_map]
  rfl

theorem eraseIds_modify_avail (l : List DateAvailability) (i : Nat) (b : Bool) :
    eraseIds (listModify l i (fun a => { a with available := b })) =
      listModify (eraseIds l) i (fun x => (x.1, x.2.1, b)) :=
  listModify_map availObs _ _ (fun _ => rfl) l i

theorem batchGo_obs (off : Int) (u : Nat) (gid : Nat → Nat) :
    ∀ (dates : List (Nat × Bool)) (l : List DateAvailability) (k : Nat),
      eraseIds (setBatchGo off u gid dates l k) =
        applyPairsObs off u dates (eraseIds l) := by
  intro dates
  induction dates with
  | nil => intro l k; rfl
  | cons p rest ih =>
    intro l k
    obtain ⟨d, b⟩ := p
    rw [setBatchGo, applyPairsObs, stepObs, jsFindIndex_obs]
    cases hfi : jsFindIndex (clientAvailMatches off u d) l with
    | some i => rw [ih, eraseIds_modify_avail]
    | none =>
      rw [ih]
      have : eraseIds (l ++ [⟨gid k, u, d, b⟩]) = eraseIds l ++ [(u, d, b)] := by
        simp [eraseIds, availObs]
      rw [this]

theorem single_obs (off : Int) (u newId d : Nat) (b : Bool)
    (l : List DateAvailability) :
    eraseIds (setAvailabilityUpdater off u newId d b l) =
      stepObs off u d b (eraseIds l) := by
  rw [setAvailabilityUpdater, stepObs, jsFindIndex_obs]
  cases hfi : jsFindIndex (clientAvailMatches off u d) l with
  | some i => rw [eraseIds_modify_avail]
  | none => simp [eraseIds, availObs]

theorem singles_obs (off : Int) (u : Nat) (f : Nat → Nat) :
    ∀ (dates : List (Nat × Bool)) (l : List DateAvailability) (j : Nat),
      eraseIds (applySingles off u f dates l j) =
        applyPairsObs off u dates (eraseIds l) := by
  intro dates
  induction dates with
  | nil => intro l j; rfl
  | cons p rest ih =>
    intro l j
    obtain ⟨d, b⟩ := p
    rw [applySingles, applyPairsObs, ih, single_obs]

/-- C5: batch equivalence. For every N, every sequence of (date, available)
pairs, every starting collection, and arbitrary supplies of temporary
identifiers on either path, the batch updater applied to one evolving
snapshot and N applications of the single-date updater in the same order
produce the same final cached availability collection, compared on the
observable content (user, date, available) of each record — the
provisional identifiers are fresh `Date.now()`-based values that the
settled-time refetch replaces. The empty batch is a no-op outright. -/
theorem batch_single_equivalence (off : Int) (u : Nat) (gid f : Nat → Nat)
    (dates : List (Nat × Bool)) (old : List DateAvailability) :
    eraseIds (setBatchAvailabilityUpdater off u gid dates old) =
      eraseIds (applySingles off u f dates old 0)
    ∧ setBatchAvailabilityUpdater off u gid [] old = old := by
  refine ⟨?_, rfl⟩
  rw [setBatchAvailabilityUpdater, batchGo_obs, singles_obs]

/-- C10: when the cached availability collection is absent (the query data
is `undefined`, before the first successful fetch), both the single and the
batch availability mutation updaters perform no optimistic cache change at
all: the updater returns the absent value unchanged. -/
theorem absent_cache_no_optimistic_change (off : Int) (u newId d : Nat)
    (b : Bool) (gid : Nat → Nat) (dates : List (Nat × Bool)) :
    setAvailabilityOnMutateUpdater off u newId d b none = none
    ∧ setBatchAvailabilityOnMutateUpdater off u gid dates none = none :=
  ⟨rfl, rfl⟩

/-! ## Server-side availability storage (`MemStorage.setDateAvailability`) -/

/-- The predicate of the server-side `findIndex`:
`a.userId === insert.userId && a.date.getTime() === insert.date.getTime()`. -/
def availMatchesExact (u t : Nat) (a : DateAvailability) : Bool :=
  a.userId == u && a.date == t

/-- `MemStorage.setDateAvailability`: build a record with the next fresh
identifier, then replace the first record with the same user and the same
exact date instant, or append when none exists. The state is the
per-trip record list paired with `currentAvailabilityId`. -/
def setDateAvailability (u t : Nat) (b : Bool)
    (st : List DateAvailability × Nat) : List DateAvailability × Nat :=
  let newRec : DateAvailability := ⟨st.2, u, t, b⟩
  match jsFindIndex (availMatchesExact u t) st.1 with
  | some i => (listModify st.1 i (fun _ => newRec), st.2 + 1)
  | none => (st.1 ++ [newRec], st.2 + 1)

/-- Number of stored records for the user at the exact date instant. -/
def countExact (l : List DateAvailability) (u t : Nat) : Nat :=
  (l.filter (availMatchesExact u t)).length

/-- The UTC calendar day of an epoch-millisecond instant. -/
def dayIndex (ms : Nat) : Nat := ms / 86400000

/-- Number of stored records for the user on a UTC calendar day. -/
def countUserDay (l : List DateAvailability) (u day : Nat) : Nat :=
  (l.filter (fun a => a.userId == u && dayIndex a.date == day)).length

/-- A sequence of availability writes applied to the server store. -/
def applyAvailOps :
    List (Nat × Nat × Bool) → List DateAvailability × Nat →
      List DateAvailability × Nat
  | [], st => st
  | (u, t, b) :: rest, st => applyAvailOps rest (setDateAvailability u t b st)

/-- At most one stored record per (participant, exact date instant). -/
def exactUnique (l : List DateAvailability) : Prop :=
  ∀ u t, countExact l u t ≤ 1

theorem availMatchesExact_new (u t n : Nat) (b : Bool) :
    availMatchesExact u t ⟨n, u, t, b⟩ = true := by
  simp [availMatchesExact]

theorem countExact_set_self (l : List DateAvailability) (n u t : Nat) (b : Bool)
    (h : countExact l u t ≤ 1) :
    countExact (setDateAvailability u t b (l, n)).1 u t = 1 := by
  rw [setDateAvailability]
  cases hfi : jsFindIndex (availMatchesExact u t) l with
  | none =>
    have h0 : l.filter (availMatchesExact u t) = [] :=
      (jsFindIndex_eq_none_iff _ _).mp hfi
    rw [countExact, filter_length_append_single, availMatchesExact_new]
    simp [h0]
  | some i =>
    obtain ⟨a, hget, hpa⟩ := jsFindIndex_some hfi
    rw [countExact, filter_length_modify (availMatchesExact u t) _ a l i hget
      (by rw [availMatchesExact_new, hpa])]
    have hmem : a ∈ l.filter (availMatchesExact u t) :=
      List.mem_filter.mpr ⟨List.getElem?_mem hget, hpa⟩
    have hpos : 0 < (l.filter (availMatchesExact u t)).length :=
      List.length_pos.mpr (List.ne_nil_of_mem hmem)
    rw [countExact] at h
    omega

theorem countExact_set_other (l : List DateAvailability) (n u t u' t' : Nat)
    (b : Bool) (hne : ¬(u = u' ∧ t = t')) :
    countExact (setDateAvailability u t b (l, n)).1 u' t' =
      countExact l u' t' := by
  rw [setDateAvailability]
  cases hfi : jsFindIndex (availMatchesExact u t) l with
  | none =>
    rw [countExact, filter_length_append_single]
    have : availMatchesExact u' t' ⟨n, u, t, b⟩ = false := by
      simp only [availMatchesExact]
      by_cases hu : u = u' <;> by_cases ht : t = t' <;> simp_all
    simp [this, countExact]
  | some i =>
    obtain ⟨a, hget, hpa⟩ := jsFindIndex_some hfi
    simp [availMatchesExact] at hpa
    rw [countExact, filter_length_modify (availMatchesExact u' t') _ a l i hget
      (by simp [availMatchesExact, hpa.1, hpa.2])]
    rfl

theorem exactUnique_set (l : List DateAvailability) (n u t : Nat) (b : Bool)
    (h : exactUnique l) :
    exactUnique (setDateAvailability u t b (l, n)).1 := by
  intro u' t'
  by_cases hc : u = u' ∧ t = t'
  · obtain ⟨hu, ht⟩ := hc
    subst hu
    subst ht
    rw [countExact_set_self l n u t b (h u t)]
  · rw [countExact_set_other l n u t u' t' b hc]
    exact h u' t'

theorem exactUnique_applyOps :
    ∀ (ops : List (Nat × Nat × Bool)) (st : List DateAvailability × Nat),
      exactUnique st.1 → exactUnique (applyAvailOps ops st).1 := by
  intro ops
  induction ops with
  | nil => intro st h; exact h
  | cons op rest ih =>
    intro st h
    obtain ⟨u, t, b⟩ := op
    exact ih (setDateAvailability u t b st)
      (by cases st; exact exactUnique_set _ _ u t b h)

theorem countExact_one_set (l : List DateAvailability) (n u t : Nat) (b : Bool)
    (h : countExact l u t = 1) :
    countExact (setDateAvailability u t b (l, n)).1 u t = 1
    ∧ ∀ a ∈ (setDateAvailability u t b (l, n)).1,
        availMatchesExact u t a = true → a.available = b := by
  have hfind : ∃ i, jsFindIndex (availMatchesExact u t) l = some i := by
    cases hfi : jsFindIndex (availMatchesExact u t) l with
    | none =>
      rw [countExact, List.length_eq_zero.mpr
        ((jsFindIndex_eq_none_iff _ _).mp hfi)] at h
      omega
    | some i => exact ⟨i, rfl⟩
  obtain ⟨i, hfi⟩ := hfind
  have hres : (setDateAvailability u t b (l, n)).1 =
      listModify l i (fun _ => (⟨n, u, t, b⟩ : DateAvailability)) := by
    rw [setDateAvailability, hfi]
  have hfu := filter_modify_unique (availMatchesExact u t)
    (⟨n, u, t, b⟩ : DateAvailability) (availMatchesExact_new u t n b) l i hfi h
  constructor
  · rw [hres, countExact, hfu]
    rfl
  · intro a ha hpa
    rw [hres] at ha
    have hmem : a ∈ (listModify l i
        (fun _ => (⟨n, u, t, b⟩ : DateAvailability))).filter
        (availMatchesExact u t) := List.mem_filter.mpr ⟨ha, hpa⟩
    rw [hfu] at hmem
    simp at hmem
    rw [hmem]

/-- C4 counterexample: two availability writes by the same participant on
the same UTC calendar day (10:00 and 14:00 of day 0) leave two stored
records, because `MemStorage.setDateAvailability` deduplicates by
`date.getTime()` equality, not at day granularity. -/
theorem avail_same_day_two_records :
    ¬ (countUserDay (setDateAvailability 1 50400000 true
        (setDateAvailability 1 36000000 true ([], 1))).1 1 0 ≤ 1) := by
  decide

/-- C4 (amended): at most one availability record is stored per
(participantId, exact date instant): the server compares dates by exact
timestamp equality, not at day granularity (the client optimistic cache
compares at local-calendar-day granularity instead). Setting availability
twice for the same (user, date) — the identical instant — with different
boolean values leaves exactly one record for that pair, holding the latest
value. The first conjunct states exact-instant uniqueness for every store
reachable from the empty store. -/
theorem availability_exact_overwrite (l : List DateAvailability)
    (n u t : Nat) (b1 b2 : Bool) (h : countExact l u t ≤ 1) :
    (∀ ops : List (Nat × Nat × Bool),
      exactUnique (applyAvailOps ops ([], 1)).1)
    ∧ countExact
        (setDateAvailability u t b2 (setDateAvailability u t b1 (l, n))).1
        u t = 1
    ∧ ∀ a ∈ (setDateAvailability u t b2
          (setDateAvailability u t b1 (l, n))).1,
        availMatchesExact u t a = true → a.available = b2 := by
  refine ⟨fun ops => exactUnique_applyOps ops ([], 1) ?_, ?_, ?_⟩
  · intro u' t'
    simp [countExact]
  · have h1 := countExact_set_self l n u t b1 h
    cases hst : setDateAvailability u t b1 (l, n) with
    | mk l1 n1 =>
      rw [hst] at h1
      exact (countExact_one_set l1 n1 u t b2 h1).1
  · have h1 := countExact_set_self l n u t b1 h
    cases hst : setDateAvailability u t b1 (l, n) with
    | mk l1 n1 =>
      rw [hst] at h1
      exact (countExact_one_set l1 n1 u t b2 h1).2

/-- Witness for the amended C4 theorem at a concrete input. -/
theorem availability_exact_overwrite_witness :
    countExact
      (setDateAvailability 1 5 false (setDateAvailability 1 5 true ([], 1))).1
      1 5 = 1 :=
  (availability_exact_overwrite [] 1 1 5 true false (by decide)).2.1

/-! ## WebSocket event dispatch (`useTripState` effect, `lastProcessedIndex`) -/

def tripKey (tripId : String) : String := "/api/trips/" ++ tripId

def messagesKey (tripId : String) : String := tripKey tripId ++ "/messages"

def votesKey (tripId : String) : String := tripKey tripId ++ "/votes"

def availabilityKey (tripId : String) : String := tripKey tripId ++ "/availability"

def participantsKey (tripId : String) : String := tripKey tripId ++ "/participants"

def missingPreferencesKey (tripId : String) : String :=
  tripKey tripId ++ "/missing-preferences"

def optionsKey (tripId : String) : String := tripKey tripId ++ "/options"

/-- The `switch (message.type)` of the WebSocket dispatch effect: the query
keys invalidated for one inbound event, in source order. The default case
only logs and invalidates nothing. -/
def invalidationsFor (tripId : String) (t : String) : List String :=
  if t = "new_message" then [messagesKey tripId, tripKey tripId]
  else if t = "vote_update" then [votesKey tripId]
  else if t = "availability_update" then [availabilityKey tripId]
  else if t = "availability_batch_update" then [availabilityKey tripId]
  else if t = "user_joined" then [participantsKey tripId]
  else if t = "user_left" then [participantsKey tripId]
  else if t = "preferences_update" then
    [missingPreferencesKey tripId, participantsKey tripId]
  else if t = "options_generated" then
    [optionsKey tripId, messagesKey tripId, tripKey tripId]
  else []

/-- One run of the dispatch effect: process
`wsMessages.slice(lastProcessedIndex.current + 1)` (each event contributing
its invalidations, in arrival order), then set
`lastProcessedIndex.current = wsMessages.length - 1`. Events are modelled by
their `type` tag; `lastProcessedIndex` starts at `-1`, hence `Int`. Returns
the invalidations issued by this run and the new index. -/
def runDispatchEffect (tripId : String) (last : Int) (log : List String) :
    List String × Int :=
  ((log.drop (last + 1).toNat).flatMap (invalidationsFor tripId),
    (log.length : Int) - 1)

/-- C3: event offset monotonicity. After the dispatcher has run on a log,
a later run on the log extended by one event dispatches invalidations only
for the new event, and re-running on the unchanged log dispatches nothing:
already-processed events never re-trigger invalidations. -/
theorem event_offset_monotonicity (tripId : String) (log : List String)
    (e3 : String) :
    (runDispatchEffect tripId (runDispatchEffect tripId (-1) log).2
        (log ++ [e3])).1 = invalidationsFor tripId e3
    ∧ (runDispatchEffect tripId (runDispatchEffect tripId (-1) log).2 log).1
        = [] := by
  have h2 : (runDispatchEffect tripId (-1) log).2 = (log.length : Int) - 1 :=
    rfl
  have htn : (((log.length : Int) - 1) + 1).toNat = log.length := by omega
  constructor
  · show ((log ++ [e3]).drop
        ((((log.length : Int) - 1) + 1)).toNat).flatMap (invalidationsFor tripId)
      = invalidationsFor tripId e3
    rw [htn]
    have hd : (log ++ [e3]).drop log.length = [e3] := by
      rw [List.drop_left]
    rw [hd]
    simp
  · show (log.drop
        ((((log.length : Int) - 1) + 1)).toNat).flatMap (invalidationsFor tripId)
      = []
    rw [htn, List.drop_length]
    rfl

/-! ## Trip lifecycle roadmap (`ContextDrawer.tsx`) -/

/-- The order of states in the overall trip lifecycle (`STATE_ORDER`). -/
def STATE_ORDER : List String :=
  ["INIT", "COLLECTING_PREFS", "COLLECTING_DATES", "GENERATING_HIGH_OPTIONS",
   "VOTING_HIGH_LEVEL", "DETAILED_PLAN_READY", "GENERATING_DETAIL_OPTIONS",
   "HOTELS_FLIGHTS_READY", "BOOKED"]

/-- The `state` fields of the four `stepDefinitions` of `getRoadmapSteps`,
in order (titles and descriptions omitted: no compared logic reads them). -/
def stepDefinitionStates : List String :=
  ["COLLECTING_DATES", "VOTING_HIGH_LEVEL", "DETAILED_PLAN_READY",
   "HOTELS_FLIGHTS_READY"]

/-- JavaScript `Array.prototype.indexOf` on a string array: the index of
the first occurrence, or `-1` when absent. -/
def jsIndexOf (l : List String) (s : String) : Int :=
  match jsFindIndex (fun x => x == s) l with
  | some i => (i : Int)
  | none => -1

/-- A roadmap step as built by `getRoadmapSteps`; the `title` and
`description` fields are omitted. -/
structure RoadmapStep where
  state : String
  completed : Bool
  current : Bool
  deriving DecidableEq, Repr

/-- `getRoadmapSteps`: for each step definition, completed is
`stepStateIndex < currentStateIndex` and current is
`step.state === tripContext.state`. -/
def getRoadmapSteps (tripState : String) : List RoadmapStep :=
  stepDefinitionStates.map (fun s =>
    { state := s,
      completed :=
        decide (jsIndexOf STATE_ORDER s < jsIndexOf STATE_ORDER tripState),
      current := s == tripState })

theorem jsFindIndex_none_of_all {α : Type} (p : α → Bool) (l : List α)
    (h : ∀ a ∈ l, p a = false) : jsFindIndex p l = none := by
  induction l with
  | nil => rfl
  | cons a l ih =>
    simp [jsFindIndex, h a (by simp), ih fun b hb => h b (by simp [hb])]

theorem jsIndexOf_not_mem (l : List String) (s : String) (h : s ∉ l) :
    jsIndexOf l s = -1 := by
  have hf : jsFindIndex (fun x => x == s) l = none := by
    apply jsFindIndex_none_of_all
    intro a ha
    cases hb : a == s with
    | false => rfl
    | true => exact absurd (eq_of_beq hb ▸ ha) h
  simp [jsIndexOf, hf]

theorem jsIndexOf_inv (l : List String) (s tripState : String) (k : Nat)
    (hk : l[k]? = some s) (hidx : jsIndexOf l tripState = (k : Int)) :
    (s == tripState) = true := by
  cases hfi : jsFindIndex (fun x => x == tripState) l with
  | none =>
    simp only [jsIndexOf, hfi] at hidx
    omega
  | some i =>
    simp only [jsIndexOf, hfi] at hidx
    have hik : i = k := by omega
    subst hik
    obtain ⟨a, hget, hpa⟩ := jsFindIndex_some hfi
    have hsa : s = a := Option.some.inj (by rw [← hk, hget])
    rw [hsa]
    exact hpa

theorem current_iff_of_index (s tripState : String) (k : Nat)
    (hk : STATE_ORDER[k]? = some s)
    (hL : jsIndexOf STATE_ORDER s = (k : Int)) :
    ((s == tripState) = true ↔
      jsIndexOf STATE_ORDER s = jsIndexOf STATE_ORDER tripState) := by
  constructor
  · intro hbeq
    rw [eq_of_beq hbeq]
  · intro hidx
    exact jsIndexOf_inv STATE_ORDER s tripState k hk (by rw [← hidx]; exact hL)

/-- C6: for every trip lifecycle state string and every milestone in the
roadmap list, the builder marks the milestone completed iff its index in
`STATE_ORDER` is strictly less than the index of the current state, and
current iff the indices are equal; in particular, with current state
VOTING_HIGH_LEVEL the four milestones are marked
(completed, current) = (true, false), (false, true), (false, false),
(false, false). -/
theorem roadmap_milestone_flags :
    (∀ (tripState : String), ∀ step ∈ getRoadmapSteps tripState,
      (step.completed = true ↔
        jsIndexOf STATE_ORDER step.state < jsIndexOf STATE_ORDER tripState)
      ∧ (step.current = true ↔
        jsIndexOf STATE_ORDER step.state = jsIndexOf STATE_ORDER tripState))
    ∧ (getRoadmapSteps "VOTING_HIGH_LEVEL").map
        (fun st => (st.completed, st.current)) =
      [(true, false), (false, true), (false, false), (false, false)] := by
  constructor
  · intro tripState step hmem
    rw [getRoadmapSteps] at hmem
    obtain ⟨s, hs, rfl⟩ := List.mem_map.mp hmem
    refine ⟨by simp, ?_⟩
    simp only [stepDefinitionStates, List.mem_cons, List.mem_singleton,
      List.not_mem_nil, or_false] at hs
    rcases hs with rfl | rfl | rfl | rfl
    · exact current_iff_of_index _ tripState 2 rfl (by decide)
    · exact current_iff_of_index _ tripState 4 rfl (by decide)
    · exact current_iff_of_index _ tripState 5 rfl (by decide)
    · exact current_iff_of_index _ tripState 7 rfl (by decide)
  · decide

/-- Witness for the C6 theorem at the concrete input of the claim. -/
theorem roadmap_milestone_flags_witness :
    ((⟨"COLLECTING_DATES", true, false⟩ : RoadmapStep).completed = true ↔
      jsIndexOf STATE_ORDER "COLLECTING_DATES" <
        jsIndexOf STATE_ORDER "VOTING_HIGH_LEVEL")
    ∧ ((⟨"COLLECTING_DATES", true, false⟩ : RoadmapStep).current = true ↔
      jsIndexOf STATE_ORDER "COLLECTING_DATES" =
        jsIndexOf STATE_ORDER "VOTING_HIGH_LEVEL") :=
  roadmap_milestone_flags.1 "VOTING_HIGH_LEVEL"
    ⟨"COLLECTING_DATES", true, false⟩ (by decide)

/-! ## Connection manager (`useWebSocket`): reconnect backoff -/

/-- The reconnect bookkeeping of `useWebSocket`: the mutable
`reconnectAttempts` counter and the `isConnected` state flag. -/
structure ConnState where
  reconnectAttempts : Nat
  isConnected : Bool
  deriving DecidableEq, Repr

def maxReconnectAttempts : Nat := 5

/-- `ws.onopen`: set `isConnected` and reset `reconnectAttempts` to zero
(the join announcement and `setSocket` are not part of this state). -/
def wsOnOpen (_s : ConnState) : ConnState :=
  { reconnectAttempts := 0, isConnected := true }

/-- `ws.onclose`: clear `isConnected`; when fewer than
`maxReconnectAttempts` retries have been made, increment the counter and
schedule `connect` after `1000 * reconnectAttempts.current` milliseconds
(the value after the increment). Returns the new state and the scheduled
retry delay, `none` when no retry is scheduled. -/
def wsOnClose (s : ConnState) : ConnState × Option Nat :=
  if s.reconnectAttempts < maxReconnectAttempts then
    ({ reconnectAttempts := s.reconnectAttempts + 1, isConnected := false },
      some (1000 * (s.reconnectAttempts + 1)))
  else
    ({ s with isConnected := false }, none)

/-- A run of `n` consecutive unexpected closes (each scheduled retry also
failing), collecting the scheduled delays in order. -/
def closeRun : Nat → ConnState → List (Option Nat) × ConnState
  | 0, s => ([], s)
  | n + 1, s =>
    let r := wsOnClose s
    let rest := closeRun n r.1
    (r.2 :: rest.1, rest.2)

/-- C7: reconnection backoff. On an unexpected close with fewer than
`maxReconnectAttempts` prior attempts, the manager schedules a retry with
delay equal to the attempt number times the fixed 1000 ms base interval;
once the counter reaches the maximum, no further retry is scheduled; the
close handler always leaves the persistent disconnected status
(`isConnected = false`); a successful open resets the attempt counter to
zero. Concretely, seven consecutive closes from a fresh connection
schedule delays 1000..5000 ms and then stop, ending disconnected. -/
theorem reconnection_backoff (s : ConnState) :
    (s.reconnectAttempts < maxReconnectAttempts →
      (wsOnClose s).2 = some (1000 * (s.reconnectAttempts + 1))
      ∧ (wsOnClose s).1.reconnectAttempts = s.reconnectAttempts + 1)
    ∧ (maxReconnectAttempts ≤ s.reconnectAttempts →
      (wsOnClose s).2 = none
      ∧ (wsOnClose s).1.reconnectAttempts = s.reconnectAttempts)
    ∧ (wsOnClose s).1.isConnected = false
    ∧ (wsOnOpen s).reconnectAttempts = 0
    ∧ (wsOnOpen s).isConnected = true
    ∧ (closeRun 7 ⟨0, true⟩).1 =
        [some 1000, some 2000, some 3000, some 4000, some 5000, none, none]
    ∧ (closeRun 7 ⟨0, true⟩).2.isConnected = false := by
  refine ⟨?_, ?_, ?_, rfl, rfl, by decide, by decide⟩
  · intro h
    rw [wsOnClose, if_pos h]
    exact ⟨rfl, rfl⟩
  · intro h
    rw [wsOnClose, if_neg (by omega)]
    exact ⟨rfl, rfl⟩
  · rw [wsOnClose]
    by_cases h : s.reconnectAttempts < maxReconnectAttempts
    · rw [if_pos h]
    · rw [if_neg h]

/-- Witness for the C7 theorem at concrete inputs. -/
theorem reconnection_backoff_witness :
    (wsOnClose ⟨2, true⟩).2 = some 3000
    ∧ (wsOnClose ⟨7, true⟩).2 = none :=
  ⟨((reconnection_backoff ⟨2, true⟩).1 (by decide)).1,
    ((reconnection_backoff ⟨7, true⟩).2.1 (by decide)).1⟩

/-! ## Connection manager (`useWebSocket`): effect teardown -/

/-- A trace of one `useWebSocket` mount session. `socketState` is the
`socket` React state; `cleanupCaptured` is the value of `socket` captured
by the closure of the cleanup most recently registered by the effect
(whose dependency array is `[tripId, userId]`); `sent` lists the
`(handle, type)` of the messages sent over each channel; `closed` lists
the handles on which `close()` was called. -/
structure WsSim where
  socketState : Option Nat
  cleanupCaptured : Option Nat
  sent : List (Nat × String)
  closed : List Nat
  deriving DecidableEq, Repr

/-- Mount: `useState` initializes `socket` to null, the effect runs at the
mount render and registers a cleanup whose closure sees `socket = null`
(the only call to `setSocket` happens later, inside `ws.onopen`). -/
def wsMount : WsSim :=
  { socketState := none, cleanupCaptured := none, sent := [], closed := [] }

/-- `ws.onopen` for channel handle `w`: send the `join_trip` announcement
and `setSocket(ws)`. The resulting re-render does not re-run the effect —
its dependencies `[tripId, userId]` are unchanged — so the registered
cleanup still holds the `socket` value captured at the mount render. -/
def wsOpenEvent (w : Nat) (s : WsSim) : WsSim :=
  { s with sent := s.sent ++ [(w, "join_trip")], socketState := some w }

/-- Unmount: React invokes the registered cleanup,
`if (socket) { socket.send(leave_trip); socket.close() }`, evaluated with
the captured `socket` value. -/
def wsUnmountCleanup (s : WsSim) : WsSim :=
  match s.cleanupCaptured with
  | some w =>
    { s with sent := s.sent ++ [(w, "leave_trip")], closed := s.closed ++ [w] }
  | none => s

/-- C8 (code bug evaluation): in a mount session in which the channel
opened (so a channel is open at teardown), the unmount cleanup sends no
`leave_trip` and closes nothing: the cleanup closure captured the
pre-open null `socket`, because `setSocket` in `ws.onopen` re-renders
without re-running the effect whose dependencies are `[tripId, userId]`. -/
theorem unmount_sends_no_leave :
    (wsUnmountCleanup (wsOpenEvent 7 wsMount)).socketState = some 7
    ∧ (wsUnmountCleanup (wsOpenEvent 7 wsMount)).sent = [(7, "join_trip")]
    ∧ (wsUnmountCleanup (wsOpenEvent 7 wsMount)).closed = [] := by
  decide

/-! ## Robustness to unknown inputs -/

/-- The known inbound event kinds of the dispatch switch. -/
def knownEventTypes : List String :=
  ["new_message", "vote_update", "availability_update",
   "availability_batch_update", "user_joined", "user_left",
   "preferences_update", "options_generated"]

/-- `ws.onmessage`: `JSON.parse` inside try/catch; on failure the error is
logged and the message list is left unchanged, on success the parsed
message is appended. The parse outcome is the `Option` argument. -/
def wsOnMessage (parsed : Option String) (msgs : List String) : List String :=
  match parsed with
  | none => msgs
  | some m => msgs ++ [m]

theorem beq_false_of_ne {s t : String} (h : s ≠ t) : (s == t) = false := by
  cases hb : s == t with
  | false => rfl
  | true => exact absurd (eq_of_beq hb) h

/-- C9: robustness to unknown inputs. An unparseable inbound payload is
dropped without changing the dispatcher state; an unrecognized event kind
invalidates nothing (the default case only logs); an unrecognized trip
lifecycle state renders the default roadmap, with no milestone completed
or current — and all three paths are total functions, so none can throw. -/
theorem robustness_unknown_inputs :
    (∀ msgs : List String, wsOnMessage none msgs = msgs)
    ∧ (∀ tripId t : String, t ∉ knownEventTypes →
        invalidationsFor tripId t = [])
    ∧ (∀ tripState : String, tripState ∉ STATE_ORDER →
        ∀ step ∈ getRoadmapSteps tripState,
          step.completed = false ∧ step.current = false) := by
  refine ⟨fun msgs => rfl, ?_, ?_⟩
  · intro tripId t ht
    have hm : ∀ x, x ∈ knownEventTypes → t ≠ x := fun x hx he => ht (he ▸ hx)
    rw [invalidationsFor, if_neg (hm _ (by decide)), if_neg (hm _ (by decide)),
      if_neg (hm _ (by decide)), if_neg (hm _ (by decide)),
      if_neg (hm _ (by decide)), if_neg (hm _ (by decide)),
      if_neg (hm _ (by decide)), if_neg (hm _ (by decide))]
  · intro tripState hst step hmem
    rw [getRoadmapSteps] at hmem
    obtain ⟨s, hs, rfl⟩ := List.mem_map.mp hmem
    have hts : jsIndexOf STATE_ORDER tripState = -1 :=
      jsIndexOf_not_mem STATE_ORDER tripState hst
    simp only [stepDefinitionStates, List.mem_cons, List.mem_singleton,
      List.not_mem_nil, or_false] at hs
    constructor
    · apply decide_eq_false
      rw [hts]
      rcases hs with rfl | rfl | rfl | rfl
      · rw [(by decide : jsIndexOf STATE_ORDER "COLLECTING_DATES" = 2)]
        decide
      · rw [(by decide : jsIndexOf STATE_ORDER "VOTING_HIGH_LEVEL" = 4)]
        decide
      · rw [(by decide : jsIndexOf STATE_ORDER "DETAILED_PLAN_READY" = 5)]
        decide
      · rw [(by decide : jsIndexOf STATE_ORDER "HOTELS_FLIGHTS_READY" = 7)]
        decide
    · apply beq_false_of_ne
      intro he
      apply hst
      rw [← he]
      rcases hs with rfl | rfl | rfl | rfl <;> decide

/-- Witness for the C9 theorem at concrete unknown inputs. -/
theorem robustness_unknown_inputs_witness :
    wsOnMessage none ["hello"] = ["hello"]
    ∧ invalidationsFor "BCN-2024-001" "mystery_event" = []
    ∧ ((⟨"COLLECTING_DATES", false, false⟩ : RoadmapStep).completed = false
      ∧ (⟨"COLLECTING_DATES", false, false⟩ : RoadmapStep).current = false) :=
  ⟨robustness_unknown_inputs.1 ["hello"],
    robustness_unknown_inputs.2.1 "BCN-2024-001" "mystery_event" (by decide),
    robustness_unknown_inputs.2.2 "MYSTERY_STATE" (by decide)
      ⟨"COLLECTING_DATES", false, false⟩ (by decide)⟩
